import Mathlib

/-!
Shallow embedding of the `goulash/matcher` Go package (files `check.go`,
`matcher.go`) and proofs about its specification.

Strings are modelled as `List Char`: Go's `for _, r := range s` iterates over
the runes (Unicode scalar values) of a string, which correspond to `Char`
values.  Machine integers that matter (`column`, `line`) are modelled as `Int`
with no overflow concerns (they stay tiny).  The comparison `r - last < 0` on
Go `rune` (= `int32`) values is equivalent to `r < last` because both code
points lie in `[0, 0x10FFFF]`, far from `int32` overflow.
-/

/-- The eight error kinds produced by `Check` (the `Err*` variables of
`check.go`), plus nothing else. -/
inductive CheckErr where
  | UnexpectedRune
  | NegativeRange
  | DualStar
  | EmptyClass
  | EmptyGlob
  | IncompleteClass
  | TrailingEscape
  | TrailingWhitespace
deriving DecidableEq, Repr

/-- Structure `BadPatternError` from `check.go`: the error kind, a 0-based column
(`-1` meaning not positional), a 1-based line (`-1` meaning no file context)
and the file identifier. -/
structure BadPatternError where
  err : CheckErr
  column : Int
  line : Int
  file : List Char
deriving DecidableEq, Repr

/-- The states of the `Check` finite-state validator (the local `State`
constants inside `Check` in `check.go`). -/
inductive CState where
  | Initial
  | Regular
  | ClassBegin
  | ClassMiddle
  | ClassRange
  | ClassRequire
  | Star
  | DualStar
  | Escape
  | Whitespace
deriving DecidableEq, Repr

/-- The mutable scan variables of `Check`: the current state, the state the
`Escape` state returns to (`next`), and the last class member seen (`last`,
a Go `rune` whose zero value is the NUL code point). -/
structure ScanSt where
  state : CState
  next : CState
  last : Char
deriving DecidableEq, Repr

/-- The `Regular` branch of `Check`'s switch (also reached from `Initial` by
fallthrough): `[` opens a class, `*` starts a star, `\` starts an escape
returning to `Regular`, whitespace enters the `Whitespace` state, anything
else stays `Regular`. -/
def regularStep (st : ScanSt) (r : Char) : ScanSt :=
  if r = '[' then { st with state := .ClassBegin }
  else if r = '*' then { st with state := .Star }
  else if r = '\\' then { st with state := .Escape, next := .Regular }
  else if r = ' ' ∨ r = '\t' ∨ r = '\n' then { st with state := .Whitespace }
  else { st with state := .Regular }

/-- The `ClassMiddle` branch of `Check`'s switch (also reached from
`ClassRequire` by fallthrough): `\` escapes returning to `ClassMiddle`,
`]` closes the class, `-` opens a range, anything else is remembered as
`last`. -/
def classMiddleStep (st : ScanSt) (r : Char) : ScanSt :=
  if r = '\\' then { st with state := .Escape, next := .ClassMiddle }
  else if r = ']' then { st with state := .Regular }
  else if r = '-' then { st with state := .ClassRange }
  else { st with state := .ClassMiddle, last := r }

/-- One transition of the `Check` state machine on one rune, translated
case-by-case from the `switch state` statement of `check.go`.  The Go
`fallthrough` from `Initial` into `Regular` and from `ClassRequire` into
`ClassMiddle` is realised by the shared helper functions. -/
def step (st : ScanSt) (r : Char) : Except CheckErr ScanSt :=
  match st.state with
  | .Initial => .ok (regularStep st r)
  | .Regular => .ok (regularStep st r)
  | .ClassBegin =>
    if r = ']' then .error .EmptyClass
    else if r = '-' then .error .UnexpectedRune
    else if r = '\\' then .ok { st with state := .Escape, next := .ClassRequire }
    else .ok { st with state := .ClassMiddle, last := r }
  | .ClassRequire =>
    if r = '-' then .error .UnexpectedRune
    else .ok (classMiddleStep st r)
  | .ClassMiddle => .ok (classMiddleStep st r)
  | .ClassRange =>
    if r = '-' ∨ r = '\\' ∨ r = ']' then .error .UnexpectedRune
    else if r.toNat < st.last.toNat then .error .NegativeRange
    else .ok { st with state := .ClassRequire }
  | .Escape => .ok { st with state := st.next }
  | .Star =>
    if r = '*' then .ok { st with state := .DualStar }
    else .ok { st with state := .Regular }
  | .DualStar => .error .DualStar
  | .Whitespace =>
    if r = ' ' ∨ r = '\t' ∨ r = '\n' then .ok st
    else .ok { st with state := .Regular }

/-- End-of-input verdict of `Check`: the final `switch state` after the loop. -/
def finalErr : CState → Option CheckErr
  | .Initial => some .EmptyGlob
  | .ClassBegin => some .IncompleteClass
  | .ClassMiddle => some .IncompleteClass
  | .ClassRange => some .IncompleteClass
  | .Escape => some .TrailingEscape
  | .Whitespace => some .TrailingWhitespace
  | _ => none

/-- The main loop of `Check`: `column` is incremented before each rune is
processed (it starts at `-1`), an in-loop error is positioned at the current
column, an end-of-input error at the column of the last rune consumed. -/
def checkLoop : ScanSt → Int → List Char → Option BadPatternError
  | st, col, [] =>
    (finalErr st.state).map fun e => { err := e, column := col, line := -1, file := [] }
  | st, col, r :: rs =>
    match step st r with
    | .error e => some { err := e, column := col + 1, line := -1, file := [] }
    | .ok st2 => checkLoop st2 (col + 1) rs

/-- The initial scan variables of `Check`: zero values of the Go locals. -/
def initSt : ScanSt := ⟨.Initial, .Initial, Char.ofNat 0⟩

/-- Function `Check` from `check.go`: `none` when the glob pattern is okay, otherwise
the `BadPatternError` describing the first failure. -/
def Check (glob : List Char) : Option BadPatternError :=
  checkLoop initSt (-1) glob

/-- Running `step` over a list of runes without column bookkeeping; used to
state which character of an input triggers a failure. -/
def runSteps : ScanSt → List Char → Except CheckErr ScanSt
  | st, [] => .ok st
  | st, c :: cs =>
    match step st c with
    | .error e => .error e
    | .ok st2 => runSteps st2 cs

/-- The states of the `Clean` normalizer (the local `State` constants inside
`Clean` in `check.go`). -/
inductive NState where
  | Initial
  | Regular
  | Escape
  | Whitespace
deriving DecidableEq, Repr

/-- The main loop of `Clean` from `check.go`, with the two accumulating
buffers (`buf` for the main output, `sp` for pending whitespace) made
explicit.  Note that in the source's `Whitespace` branch the non-whitespace
rune `r` is consumed without being appended to either buffer. -/
def cleanLoop : NState → List Char → List Char → List Char → List Char
  | _, buf, _, [] => buf
  | st, buf, sp, r :: rs =>
    match st with
    | .Initial =>
      if r = '#' then []
      else
        if r = ' ' ∨ r = '\t' ∨ r = '\n' then cleanLoop .Whitespace buf (sp ++ [r]) rs
        else if r = '\\' then cleanLoop .Escape buf sp rs
        else cleanLoop .Regular (buf ++ [r]) sp rs
    | .Regular =>
      if r = ' ' ∨ r = '\t' ∨ r = '\n' then cleanLoop .Whitespace buf (sp ++ [r]) rs
      else if r = '\\' then cleanLoop .Escape buf sp rs
      else cleanLoop .Regular (buf ++ [r]) sp rs
    | .Escape => cleanLoop .Regular (buf ++ ['\\', r]) sp rs
    | .Whitespace =>
      if r = ' ' ∨ r = '\t' ∨ r = '\n' then cleanLoop .Whitespace buf (sp ++ [r]) rs
      else cleanLoop .Regular (buf ++ sp) [] rs

/-- Function `Clean` from `check.go`: discards a leading-`#` comment line entirely and
drops unescaped trailing whitespace (the pending-whitespace buffer is thrown
away at end-of-input). -/
def Clean (s : List Char) : List Char :=
  cleanLoop .Initial [] [] s

/-!
### Lexical path helpers

`matcher.go` calls the Go standard library's purely lexical path functions
`filepath.Clean`, `filepath.Join`, `filepath.Base` and `filepath.IsAbs`
(Unix separator `/`).  They are filesystem glue declared out of scope by the
spec; the definitions below model their documented lexical behaviour, which
the proofs need only on concrete inputs.
-/

/-- Split a rune list at every `/`; a leading, trailing or doubled `/`
produces an empty component, mirroring how path elements are delimited. -/
def splitSlash : List Char → List (List Char)
  | [] => [[]]
  | c :: rest =>
    if c = '/' then [] :: splitSlash rest
    else
      match splitSlash rest with
      | g :: gs => (c :: g) :: gs
      | [] => [[c]]

/-- Process path components against a stack (held reversed in `acc`):
empty and `.` components vanish, `..` pops a previous component when
possible, is dropped at the root, and is kept when nothing can be popped in
a relative path.  This is the component-level statement of the lexical
cleaning loop of Go's `filepath.Clean`. -/
def cleanStack (acc : List (List Char)) (comps : List (List Char)) (rooted : Bool) :
    List (List Char) :=
  match comps with
  | [] => acc.reverse
  | comp :: rest =>
    if comp = [] ∨ comp = ['.'] then cleanStack acc rest rooted
    else if comp = ['.', '.'] then
      match acc with
      | top :: acc2 =>
        if top = ['.', '.'] then cleanStack (comp :: top :: acc2) rest rooted
        else cleanStack acc2 rest rooted
      | [] =>
        if rooted then cleanStack [] rest rooted
        else cleanStack [comp] rest rooted
    else cleanStack (comp :: acc) rest rooted

/-- Join components with `/` separators. -/
def joinComps : List (List Char) → List Char
  | [] => []
  | [x] => x
  | x :: xs => x ++ '/' :: joinComps xs

/-- Model of Go's `filepath.Clean` (Unix): shortest lexical equivalent of a
path — `.` for the empty path, no doubled separators, no inner `.` or
resolvable `..` elements, no trailing separator. -/
def filepathClean (p : List Char) : List Char :=
  if p = [] then ['.']
  else
    let rooted := decide (p.head? = some '/')
    let stack := cleanStack [] (splitSlash p) rooted
    let body := joinComps stack
    if rooted then '/' :: body
    else if body = [] then ['.']
    else body

/-- Model of Go's two-argument `filepath.Join`: non-empty elements joined
with a `/` and then cleaned; the empty string when both are empty. -/
def joinPath (a b : List Char) : List Char :=
  if a = [] ∧ b = [] then []
  else if a = [] then filepathClean b
  else if b = [] then filepathClean a
  else filepathClean (a ++ '/' :: b)

/-- Model of Go's `filepath.IsAbs` on Unix: the path starts with `/`. -/
def isAbs (p : List Char) : Bool :=
  p.head? = some '/'

/-- Model of Go's `filepath.Base`: `.` for the empty path, `/` for a path of
only separators, otherwise the last element after dropping trailing
separators. -/
def filepathBase (p : List Char) : List Char :=
  if p = [] then ['.']
  else
    let q := (p.reverse.dropWhile (fun c => c = '/')).reverse
    if q = [] then ['/']
    else (q.reverse.takeWhile (fun c => decide (c = '/') = false)).reverse

/-!
### The external glob primitive and the documented pattern grammar

`match` in `matcher.go` calls `filepath.Match`, declared by the spec to be an
out-of-scope trusted primitive `GlobMatch(pattern, candidate) -> bool`.
-/

/-- Modelled from the spec: one `class-char` of the §6 grammar — either an
escaped character or a plain character other than `\`, `-`, `]`. -/
def parseClassItem : List Char → Option (Char × List Char)
  | [] => none
  | '\\' :: rest =>
    match rest with
    | [] => none
    | c :: rest2 => some (c, rest2)
  | ']' :: _ => none
  | '-' :: _ => none
  | c :: rest => some (c, rest)

/-- Modelled from the spec: the members of a character class as `(lo, hi)`
pairs (a single member `c` becomes `(c, c)`), consumed up to the closing
`]`.  The fuel argument bounds the scan and is in every use at least the
input length, which suffices because each round consumes a character. -/
def parseRanges : Nat → List Char → Option (List (Char × Char) × List Char)
  | 0, _ => none
  | _ + 1, ']' :: rest => some ([], rest)
  | fuel + 1, l =>
    match parseClassItem l with
    | none => none
    | some (lo, l1) =>
      match l1 with
      | '-' :: l2 =>
        match parseClassItem l2 with
        | none => none
        | some (hi, l3) =>
          match parseRanges fuel l3 with
          | some (rs, rest) => some ((lo, hi) :: rs, rest)
          | none => none
      | _ =>
        match parseRanges fuel l1 with
        | some (rs, rest) => some ((lo, lo) :: rs, rest)
        | none => none

/-- Modelled from the spec: a whole character class after its opening `[` —
an optional leading `^` negation, then a non-empty body, then `]`.  Returns
the negation flag, the members and the rest of the pattern. -/
def parseClass (p : List Char) : Option (Bool × List (Char × Char) × List Char) :=
  match p with
  | '^' :: rest =>
    match parseRanges (rest.length + 1) rest with
    | some (rs, rest2) => if rs = [] then none else some (true, rs, rest2)
    | none => none
  | _ =>
    match parseRanges (p.length + 1) p with
    | some (rs, rest2) => if rs = [] then none else some (false, rs, rest2)
    | none => none

/-- Whether a character is accepted by a (possibly negated) class body. -/
def matchClass (neg : Bool) (ranges : List (Char × Char)) (c : Char) : Bool :=
  let inRange := ranges.any fun lh => decide (lh.1 ≤ c) && decide (c ≤ lh.2)
  if neg then !inRange else inRange

/-- Modelled from the spec: the external glob primitive `GlobMatch` of §6 —
`*` matches any run of non-separator characters, `?` one non-separator
character, `[...]` a class member, `\c` and plain characters literally.
The fuel argument bounds the recursion; each call consumes pattern or
candidate, so the sum of both lengths suffices. -/
def globMatchF : Nat → List Char → List Char → Bool
  | 0, _, _ => false
  | _ + 1, [], s => s.isEmpty
  | fuel + 1, '*' :: p, s =>
    globMatchF fuel p s ||
      (match s with
       | [] => false
       | c :: s2 => decide (c = '/') = false && globMatchF fuel ('*' :: p) s2)
  | fuel + 1, '?' :: p, s =>
    match s with
    | c :: s2 => decide (c = '/') = false && globMatchF fuel p s2
    | [] => false
  | fuel + 1, '\\' :: p, s =>
    match p, s with
    | c :: p2, d :: s2 => d = c && globMatchF fuel p2 s2
    | _, _ => false
  | fuel + 1, '[' :: p, s =>
    match parseClass p, s with
    | some (neg, ranges, rest), c :: s2 => matchClass neg ranges c && globMatchF fuel rest s2
    | _, _ => false
  | fuel + 1, c :: p, s =>
    match s with
    | d :: s2 => d = c && globMatchF fuel p s2
    | [] => false

/-- Modelled from the spec: `GlobMatch` with sufficient fuel. -/
def globMatch (p s : List Char) : Bool :=
  globMatchF (p.length + s.length + 1) p s

/-- Modelled from the spec: membership in the §6 pattern grammar
(`pattern = term*`, classes non-empty with `lo <= hi` ranges), the language
on which the external glob primitive is error-free by contract.  Fuel as in
`globMatchF`. -/
def grammarAcceptsF : Nat → List Char → Bool
  | 0, _ => false
  | _ + 1, [] => true
  | fuel + 1, '*' :: p => grammarAcceptsF fuel p
  | fuel + 1, '?' :: p => grammarAcceptsF fuel p
  | fuel + 1, '\\' :: p =>
    match p with
    | _ :: p2 => grammarAcceptsF fuel p2
    | [] => false
  | fuel + 1, '[' :: p =>
    match parseClass p with
    | some (_, rs, rest) =>
      rs.all (fun lh => decide (lh.1 ≤ lh.2)) && grammarAcceptsF fuel rest
    | none => false
  | fuel + 1, _ :: p => grammarAcceptsF fuel p

/-- Modelled from the spec: §6 grammar membership with sufficient fuel. -/
def grammarAccepts (p : List Char) : Bool :=
  grammarAcceptsF (p.length + 1) p

/-!
### `matcher.go`: match evaluation, pattern stores, file loading
-/

/-- Function `match` from `matcher.go` (named `matchPat` here because `match` is a
Lean keyword): an empty pattern matches nothing; a pattern without `/` is
compared against the candidate's basename, otherwise against the full
candidate; the comparison itself is the external glob primitive.  The
source's panic on a match-time pattern error has no counterpart because the
spec's `GlobMatch` is total. -/
def matchPat (pattern s : List Char) : Bool :=
  if pattern = [] then false
  else
    let s2 := if pattern.contains '/' then s else filepathBase s
    globMatch pattern s2

/-- Function `matchAll` from `matcher.go`: true iff any pattern matches. -/
def matchAll (patterns : List (List Char)) (s : List Char) : Bool :=
  patterns.any fun p => matchPat p s

/-- The errors surfaced by `add`: a validator error or `ErrGlobIsPath`. -/
inductive AddErr where
  | bad (e : BadPatternError)
  | globIsPath
deriving DecidableEq, Repr

/-- Function `add` from `matcher.go`: validate with `Check`, reject globs containing a
path separator, append otherwise.  Returns the updated list and the error. -/
def add (list : List (List Char)) (glob : List Char) : List (List Char) × Option AddErr :=
  match Check glob with
  | some e => (list, some (.bad e))
  | none =>
    if glob.contains '/' then (list, some .globIsPath)
    else (list ++ [glob], none)

/-- Function `addAll` from `matcher.go`: `add` each glob in order, stopping at the
first error; globs added before the error stay in the list. -/
def addAll (list : List (List Char)) : List (List Char) → List (List Char) × Option AddErr
  | [] => (list, none)
  | g :: gs =>
    match add list g with
    | (l, some e) => (l, some e)
    | (l, none) => addAll l gs

/-- Structure `Matcher` from `matcher.go`: the configuration basename and the global
(basename-only) glob list. -/
structure Matcher where
  config : List Char
  global : List (List Char)
deriving DecidableEq, Repr

/-- Method `Matcher.Add`: `addAll` on the global list. -/
def Matcher.Add (m : Matcher) (globs : List (List Char)) : Matcher × Option AddErr :=
  let r := addAll m.global globs
  ({ m with global := r.1 }, r.2)

/-- Method `Matcher.Matches` from `matcher.go`: true iff any global glob matches the
candidate's basename. -/
def Matcher.Matches (m : Matcher) (path : List Char) : Bool :=
  matchAll m.global (filepathBase path)

/-- Structure `Worker` from `matcher.go`: a working directory, the local glob list and
the shared global list (the source's `local` field is a Lean keyword, hence
`loc`). -/
structure Worker where
  cwd : List Char
  loc : List (List Char)
  global : List (List Char)
deriving DecidableEq, Repr

/-- Method `Worker.Add`: `addAll` on the local list. -/
def Worker.Add (w : Worker) (globs : List (List Char)) : Worker × Option AddErr :=
  let r := addAll w.loc globs
  ({ w with loc := r.1 }, r.2)

/-- Method `Worker.Matches` from `matcher.go`: clean the candidate, fail closed on
an empty cleaned candidate, anchor a relative candidate at the worker's
directory, then try the global list and the local list in order. -/
def Worker.Matches (w : Worker) (path : List Char) : Bool :=
  let p1 := filepathClean path
  if p1 = [] then false
  else
    let p2 := if isAbs p1 then p1 else filepathClean (joinPath w.cwd p1)
    matchAll w.global p2 || matchAll w.loc p2

/-- The rewrite applied by `Worker.AddFile` before insertion: a cleaned line
containing a path separator is anchored at the source file's directory via
`filepath.Join`; a basename line is stored as is. -/
def storeLine (base s : List Char) : List Char :=
  if s.contains '/' then joinPath base s else s

/-- The body of `Worker.AddFile` from `matcher.go` over the file's lines:
normalize each line with `Clean`, skip empty results, validate with `Check`,
stop at the first validation error after stamping it with the 1-based line
number and the file identifier, otherwise append the (possibly rewritten)
pattern to the local list.  `base` is the directory of the file's absolute
path and `n` counts the lines already scanned. -/
def addFileLines (base path : List Char) :
    Nat → List (List Char) → List (List Char) → List (List Char) × Option BadPatternError
  | _, loc, [] => (loc, none)
  | n, loc, l :: rest =>
    let s := Clean l
    if s = [] then addFileLines base path (n + 1) loc rest
    else
      match Check s with
      | some e => (loc, some { e with line := (n : Int) + 1, file := path })
      | none => addFileLines base path (n + 1) (loc ++ [storeLine base s]) rest

/-- Method `Worker.AddFile` on a list of lines, starting before the first line. -/
def AddFile (base path : List Char) (loc : List (List Char)) (lines : List (List Char)) :
    List (List Char) × Option BadPatternError :=
  addFileLines base path 0 loc lines

/-- The patterns a prefix of a file contributes to the local list: each line
whose normalization is non-empty, after the `storeLine` rewrite. -/
def goodPatterns (base : List Char) (lines : List (List Char)) : List (List Char) :=
  lines.filterMap fun l => if Clean l = [] then none else some (storeLine base (Clean l))

/-- The ancestor-walk of `Matcher.NewWorker` as the pure sequence of visited
directories (the spec's `discoverAncestorFiles` decomposition): the loop
visits `dir`, steps to `filepath.Clean(filepath.Join(dir, ".."))` and breaks
as soon as that parent is `/`.  The fuel bounds the walk; the theorems hold
for every fuel. -/
def walkDirs : Nat → List Char → List (List Char)
  | 0, dir => [dir]
  | fuel + 1, dir =>
    let parent := filepathClean (joinPath dir ['.', '.'])
    dir :: (if parent = ['/'] then [] else walkDirs fuel parent)

/-- The configuration files attempted by `Matcher.NewWorker`'s walk: the
fixed basename joined onto each visited directory. -/
def walkAttempts (fuel : Nat) (dir config : List Char) : List (List Char) :=
  (walkDirs fuel dir).map fun d => joinPath d config

/-- One mutating operation on the pattern lists: `Matcher.Add`,
`Worker.Add`, or `Worker.AddFile` of a whole file (its base directory, its
identifier and its lines). -/
inductive Op where
  | addGlobal (globs : List (List Char))
  | addLocalOp (globs : List (List Char))
  | addFileOp (base path : List Char) (lines : List (List Char))
deriving DecidableEq, Repr

/-- The two pattern lists a sequence of operations acts on. -/
structure MWState where
  global : List (List Char)
  loc : List (List Char)
deriving DecidableEq, Repr

/-- Apply one operation: errors are returned to the caller in the source and
leave whatever the operation had already appended in place. -/
def applyOp (st : MWState) : Op → MWState
  | .addGlobal gs => { st with global := (addAll st.global gs).1 }
  | .addLocalOp gs => { st with loc := (addAll st.loc gs).1 }
  | .addFileOp base path lines => { st with loc := (addFileLines base path 0 st.loc lines).1 }

/-- Apply a sequence of operations from left to right. -/
def applyOps (st : MWState) : List Op → MWState
  | [] => st
  | op :: ops => applyOps (applyOp st op) ops

/-- What is true of every stored pattern string: it passes the validator, or
it is the `filepath.Join` of some base directory with a validated pattern
containing a path separator. -/
def StoredOK (s : List Char) : Prop :=
  Check s = none ∨
    ∃ base t, Check t = none ∧ t.contains '/' = true ∧ s = joinPath base t

/-- The expected kinds for the test vectors of `check_test.go`. -/
def checkTestVectors : List (List Char × Option CheckErr) :=
  [ ("abc".toList, none)
  , ("*".toList, none)
  , ("*c".toList, none)
  , ("a*".toList, none)
  , ("a*/b".toList, none)
  , ("a*b*c*d*e*/f".toList, none)
  , ("a*b?c*x".toList, none)
  , ("ab[c]".toList, none)
  , ("ab[b-d]".toList, none)
  , ("ab[^c]".toList, none)
  , ("ab[^b-d]".toList, none)
  , ("a\\*b".toList, none)
  , ("a[^a]b".toList, none)
  , ("a???b".toList, none)
  , ("a[^a][^a][^a]b".toList, none)
  , ("[a-ζ]*".toList, none)
  , ("*[a-ζ]".toList, none)
  , ("a?b".toList, none)
  , ("a*b".toList, none)
  , ("[\\]a]".toList, none)
  , ("[\\-]".toList, none)
  , ("[x\\-]".toList, none)
  , ("[\\-x]".toList, none)
  , ("[]a]".toList, some .EmptyClass)
  , ("[-]".toList, some .UnexpectedRune)
  , ("[x-]".toList, some .UnexpectedRune)
  , ("[-x]".toList, some .UnexpectedRune)
  , ("\\".toList, some .TrailingEscape)
  , ("[a-b-c]".toList, some .UnexpectedRune)
  , ("[".toList, some .IncompleteClass)
  , ("[^".toList, some .IncompleteClass)
  , ("[^bc".toList, some .IncompleteClass)
  , ("a[".toList, some .IncompleteClass)
  , ("*x".toList, none)
  , ("".toList, some .EmptyGlob)
  , ("  \t".toList, some .TrailingWhitespace)
  , (" ".toList, some .TrailingWhitespace)
  , ("ab ".toList, some .TrailingWhitespace)
  , ("[\\--]".toList, some .UnexpectedRune)
  , ("foo/**/bar".toList, some .DualStar)
  , ("foo[]bar".toList, some .EmptyClass)
  , ("[z-a]".toList, some .NegativeRange)
  , ("]".toList, none) ]

/-- The embedding of `Check` reproduces every row of `TestCheck` in
`check_test.go`. -/
theorem check_agrees_with_test_vectors :
    checkTestVectors.all (fun t => (Check t.1).map BadPatternError.err == t.2) = true := by
  decide

/-- The embedding of `matchPat` reproduces every row of `TestMatch` in the
matcher test file. -/
theorem matchpat_agrees_with_test_vectors :
    (matchPat "".toList "".toList = false ∧
      matchPat "".toList "/".toList = false ∧
      matchPat "".toList "/home".toList = false ∧
      matchPat " \t".toList "/home".toList = false) ∧
    (matchPat "foo".toList "foo".toList = true ∧
      matchPat "foo".toList "bar/foo".toList = true ∧
      matchPat "foo".toList "foobar".toList = false) ∧
    (matchPat "bar/*".toList "foo".toList = false ∧
      matchPat "bar/*".toList "bar/foo".toList = true ∧
      matchPat "bar/*".toList "bar".toList = false) ∧
    (matchPat "Documentation/*.html".toList "Documentation/git.html".toList = true ∧
      matchPat "Documentation/*.html".toList "Documentation/xyz/git.html".toList = false ∧
      matchPat "Documentation/*.html".toList "tools/Documentation/perf.html".toList = false) := by
  decide

/-- C1: `Check` accepts the pattern `[^]`, yet `[^]` lies outside the
documented §6 glob grammar (after the optional `^` negation the class body
must be non-empty), so the contract that only grammar-valid patterns reach
the external glob primitive is violated: Go's `filepath.Match` reports
`ErrBadPattern` on `[^]` against any non-empty segment and `match` panics.
The claim that the panic branch is unreachable after `Check` names the
intended behaviour; the validator's `ClassBegin` state treating `^` as an
ordinary first member is the slip. -/
theorem check_accepts_invalid_class_pattern :
    Check "[^]".toList = none ∧ grammarAccepts "[^]".toList = false := by
  decide

/-- C3 counterexample: the batch `["a", "["]` given to the direct-insert API
returns an error, yet the list is `["a"]` afterwards, not the empty list it
was before the call — the insert is partial, not atomic. -/
theorem addall_not_atomic :
    addAll [] ["a".toList, "[".toList] =
      (["a".toList], some (AddErr.bad ⟨.IncompleteClass, 0, -1, []⟩)) ∧
    ["a".toList] ≠ ([] : List (List Char)) := by
  decide

/-- C4: the empty candidate does match stored patterns.  `filepath.Clean("")`
is `"."`, so the `path == ""` guard in `Worker.Matches` (placed after the
clean) never fires; the candidate resolves to the worker's directory and is
matched against the stored patterns.  `Matcher.Matches("")` likewise reduces
the empty candidate to the basename `"."`.  The spec's fail-closed claim
matches the dead guard's evident intent; the code is the slip. -/
theorem matches_empty_candidate_true :
    Worker.Matches ⟨"/home".toList, [], ["home".toList]⟩ "".toList = true ∧
    Matcher.Matches ⟨[], ["*".toList]⟩ "".toList = true := by
  decide

/-- C5: when a non-whitespace rune arrives in the `Whitespace` state of
`Clean`, the pending whitespace is flushed but the rune itself is consumed
without being appended: `Clean "a b"` is `"a "`, not the `"a b"` the spec
describes, so the character after internal whitespace is lost. -/
theorem clean_drops_char_after_internal_whitespace :
    Clean "a b".toList = "a ".toList ∧ Clean "a b".toList ≠ "a b".toList := by
  decide

/-- C6: `Clean` is not idempotent.  Because the rune after internal
whitespace is dropped, `Clean "x y" = "x "`, whose own cleaning drops the now
trailing whitespace: `Clean (Clean "x y") = "x" ≠ Clean "x y"`. -/
theorem clean_not_idempotent_on_internal_whitespace :
    Clean (Clean "x y".toList) = "x".toList ∧ Clean "x y".toList = "x ".toList ∧
    Clean (Clean "x y".toList) ≠ Clean "x y".toList := by
  decide

/-- C8: reaching `DualStar` exactly at end-of-input is a success — `**` alone
passes `Check` (and more generally the final verdict on the `DualStar` state
is success), while a character after the second star fails with the
dual-star error at that character's column: `**x` and `**/` are rejected. -/
theorem dualstar_at_end_accepted :
    (∀ (nx : CState) (lastc : Char) (col : Int),
      checkLoop ⟨.DualStar, nx, lastc⟩ col [] = none) ∧
    Check "**".toList = none ∧
    Check "**x".toList = some ⟨.DualStar, 2, -1, []⟩ ∧
    Check "**/".toList = some ⟨.DualStar, 2, -1, []⟩ := by
  exact ⟨fun nx lastc col => rfl, by decide, by decide, by decide⟩

/-- C2 counterexample: loading the single line `c/d` from a configuration
file in the directory `/a[b` stores the rewritten pattern `/a[b/c/d`, which
does not pass the validator (the `[` of the directory name reads as an
unterminated character class) — validation happens before the rewrite, so
the stored string itself need not be valid. -/
theorem rewritten_pattern_fails_check :
    (applyOps ⟨[], []⟩ [Op.addFileOp "/a[b".toList "f".toList ["c/d".toList]]).loc =
      ["/a[b/c/d".toList] ∧
    Check "/a[b/c/d".toList = some ⟨.IncompleteClass, 7, -1, []⟩ := by
  decide

/-- C7 counterexample: `Check "["` fails at end-of-input with column `0`,
the index of the last character, not the index `1` one past it that the
claim requires (similarly `Check ""` reports column `-1`, not `0`). -/
theorem check_eoi_column_not_one_past :
    Check "[".toList = some ⟨.IncompleteClass, 0, -1, []⟩ ∧
    (0 : Int) ≠ ("[".toList.length : Int) ∧
    Check "".toList = some ⟨.EmptyGlob, -1, -1, []⟩ := by
  decide

/-- C9 amended: the ancestor walk attempts the configuration file in the
starting directory and in each successive parent, but it stops as soon as
the parent step reaches `/`, before processing it: for every starting
directory other than the root itself, the root directory is never visited
(for any walk budget). -/
theorem walk_never_visits_root (fuel : Nat) (dir : List Char) (h : dir ≠ ['/']) :
    ¬ ['/'] ∈ walkDirs fuel dir := by
  induction fuel generalizing dir with
  | zero =>
    simp only [walkDirs, List.mem_singleton]
    exact fun hh => h hh.symm
  | succ n ih =>
    simp only [walkDirs, List.mem_cons]
    intro hmem
    rcases hmem with hd | hrest
    · exact h hd.symm
    · by_cases hp : filepathClean (joinPath dir ['.', '.']) = ['/']
      · rw [if_pos hp] at hrest
        simp at hrest
      · rw [if_neg hp] at hrest
        exact ih _ hp hrest

/-- Witness for C9's amended theorem at the starting directory `/a`. -/
theorem walk_never_visits_root_witness :
    "/a".toList ≠ ['/'] ∧ ¬ ['/'] ∈ walkDirs 3 "/a".toList :=
  ⟨by decide, walk_never_visits_root 3 "/a".toList (by decide)⟩

/-- C3 amended: when a batch handed to the direct-insert API contains an
offending glob (invalid or containing a path separator), the call returns
that first error, the valid separator-free globs before it are inserted, and
the offending glob and everything after it are not — a partial insert, not a
rollback. -/
theorem addall_partial_insert (l pre : List (List Char)) (g : List Char) (gs : List (List Char))
    (h1 : ∀ p ∈ pre, Check p = none ∧ p.contains '/' = false)
    (h2 : ¬ (Check g = none ∧ g.contains '/' = false)) :
    addAll l (pre ++ g :: gs) = (l ++ pre, (add (l ++ pre) g).2) ∧
      ((add (l ++ pre) g).2).isSome = true := by
  induction pre generalizing l with
  | nil =>
    simp only [List.nil_append, List.append_nil]
    cases hc : Check g with
    | some e => simp [addAll, add, hc]
    | none =>
      have hcon : g.contains '/' = true := by
        cases hcc : g.contains '/' with
        | true => rfl
        | false => exact absurd ⟨hc, hcc⟩ h2
      have hcon2 : '/' ∈ g := by simpa using hcon
      simp [addAll, add, hc, hcon2]
  | cons p pre ih =>
    have hp := h1 p (List.mem_cons_self p pre)
    have hnp : '/' ∉ p := by simpa using hp.2
    have hadd : add l p = (l ++ [p], none) := by
      simp [add, hp.1, hnp]
    have ih2 := ih (l ++ [p]) fun q hq => h1 q (List.mem_cons_of_mem p hq)
    simp only [List.cons_append, addAll, hadd]
    simpa [List.append_assoc] using ih2

/-- Witness for C3's amended theorem: the batch `["ok", "b/c"]` inserts
`"ok"` and stops at the path-separator error. -/
theorem addall_partial_insert_witness :
    addAll [] ["ok".toList, "b/c".toList] = (["ok".toList], some AddErr.globIsPath) := by
  have h := addall_partial_insert [] ["ok".toList] "b/c".toList []
    (by decide) (by decide)
  simpa using h.1

/-- Running `addFileLines` on a file whose lines up to the first invalid one are
blank-or-valid: the scan stops at the invalid line, stamps the error with
the line number counted from `n` and the file identifier, and keeps the
patterns contributed by the earlier lines. -/
theorem addFileLines_first_error (base path b : List Char) (rest : List (List Char))
    (e : BadPatternError) (pre : List (List Char)) (n : Nat) (loc : List (List Char))
    (h1 : ∀ l ∈ pre, Clean l = [] ∨ Check (Clean l) = none)
    (h2 : Clean b ≠ []) (h3 : Check (Clean b) = some e) :
    addFileLines base path n loc (pre ++ b :: rest) =
      (loc ++ goodPatterns base pre,
        some { e with line := (n : Int) + pre.length + 1, file := path }) := by
  induction pre generalizing n loc with
  | nil =>
    simp only [List.nil_append, addFileLines, goodPatterns, List.filterMap_nil,
      List.append_nil]
    rw [if_neg h2, h3]
    simp
  | cons l pre ih =>
    by_cases hcl : Clean l = []
    · have ih2 := ih (n + 1) loc fun q hq => h1 q (List.mem_cons_of_mem l hq)
      simp only [List.cons_append, addFileLines, if_pos hcl, List.append_eq]
      rw [ih2]
      have harith : ((n + 1 : Nat) : Int) + pre.length + 1 =
          (n : Int) + (l :: pre).length + 1 := by
        simp [List.length_cons]
        ring
      rw [harith]
      have hgood : goodPatterns base (l :: pre) = goodPatterns base pre := by
        simp [goodPatterns, hcl]
      rw [hgood]
    · have hck : Check (Clean l) = none :=
        (h1 l (List.mem_cons_self l pre)).resolve_left hcl
      have ih2 := ih (n + 1) (loc ++ [storeLine base (Clean l)])
        fun q hq => h1 q (List.mem_cons_of_mem l hq)
      simp only [List.cons_append, addFileLines, if_neg hcl, hck, List.append_eq]
      rw [ih2]
      have harith : ((n + 1 : Nat) : Int) + pre.length + 1 =
          (n : Int) + (l :: pre).length + 1 := by
        simp [List.length_cons]
        ring
      rw [harith]
      have hgood : goodPatterns base (l :: pre) =
          storeLine base (Clean l) :: goodPatterns base pre := by
        simp [goodPatterns, hcl]
      rw [hgood]
      simp [List.append_assoc]

/-- C10: `Worker.AddFile` stops at the first normalized non-empty line that
fails validation, returns that validator error augmented with the 1-based
line number (blank and comment lines included in the count) and the file
identifier, and all valid patterns from the earlier lines of the same file
remain in the local list — no rollback. -/
theorem addfile_stops_at_first_invalid_line (base path b : List Char)
    (rest : List (List Char)) (e : BadPatternError) (pre : List (List Char))
    (loc : List (List Char))
    (h1 : ∀ l ∈ pre, Clean l = [] ∨ Check (Clean l) = none)
    (h2 : Clean b ≠ []) (h3 : Check (Clean b) = some e) :
    AddFile base path loc (pre ++ b :: rest) =
      (loc ++ goodPatterns base pre,
        some { e with line := (pre.length : Int) + 1, file := path }) := by
  have h := addFileLines_first_error base path b rest e pre 0 loc h1 h2 h3
  simpa using h

/-- Witness for C10 at a concrete file: line 1 is a comment, line 2 a valid
pattern, line 3 the invalid `[`; the error carries line 3 and the file
identifier, and the pattern from line 2 stays in the local list. -/
theorem addfile_stops_at_first_invalid_line_witness :
    AddFile "/d".toList "f".toList ["x".toList]
        ["# c".toList, "ok".toList, "[".toList, "y".toList] =
      (["x".toList, "ok".toList],
        some ⟨.IncompleteClass, 0, 3, "f".toList⟩) := by
  have h := addfile_stops_at_first_invalid_line "/d".toList "f".toList "[".toList
    ["y".toList] ⟨.IncompleteClass, 0, -1, []⟩ ["# c".toList, "ok".toList]
    ["x".toList] (by decide) (by decide) (by decide)
  simpa using h

/-- Function `add` only ever appends a glob that passed the validator. -/
theorem add_preserves_StoredOK (l : List (List Char)) (g : List Char)
    (hl : ∀ t ∈ l, StoredOK t) : ∀ t ∈ (add l g).1, StoredOK t := by
  intro t ht
  unfold add at ht
  cases hc : Check g with
  | some e =>
    rw [hc] at ht
    exact hl t ht
  | none =>
    rw [hc] at ht
    by_cases hcon : g.contains '/' = true
    · rw [if_pos (by simpa using hcon)] at ht
      exact hl t ht
    · rw [if_neg (by simpa using hcon)] at ht
      rcases List.mem_append.mp ht with h1 | h2
      · exact hl t h1
      · rw [List.mem_singleton.mp h2]
        exact Or.inl hc

/-- Function `addAll` only ever appends globs that passed the validator. -/
theorem addAll_preserves_StoredOK (gs : List (List Char)) (l : List (List Char))
    (hl : ∀ t ∈ l, StoredOK t) : ∀ t ∈ (addAll l gs).1, StoredOK t := by
  induction gs generalizing l with
  | nil => simpa [addAll] using hl
  | cons g gs ih =>
    intro t ht
    simp only [addAll] at ht
    rcases hadd : add l g with ⟨l2, oe⟩
    have hl2 : ∀ t ∈ l2, StoredOK t := by
      intro u hu
      exact add_preserves_StoredOK l g hl u (by rw [hadd]; exact hu)
    rw [hadd] at ht
    cases oe with
    | some e => exact hl2 t ht
    | none => exact ih l2 hl2 t ht

/-- Function `addFileLines` only ever appends strings that passed the validator or
are the join of the base directory with a validated path pattern. -/
theorem addFileLines_preserves_StoredOK (base path : List Char)
    (lines : List (List Char)) (n : Nat) (loc : List (List Char))
    (hl : ∀ t ∈ loc, StoredOK t) : ∀ t ∈ (addFileLines base path n loc lines).1, StoredOK t := by
  induction lines generalizing n loc with
  | nil => simpa [addFileLines] using hl
  | cons l lines ih =>
    intro t ht
    simp only [addFileLines] at ht
    by_cases hcl : Clean l = []
    · rw [if_pos hcl] at ht
      exact ih (n + 1) loc hl t ht
    · rw [if_neg hcl] at ht
      cases hck : Check (Clean l) with
      | some e =>
        rw [hck] at ht
        exact hl t ht
      | none =>
        rw [hck] at ht
        refine ih (n + 1) (loc ++ [storeLine base (Clean l)]) ?_ t ht
        intro u hu
        rcases List.mem_append.mp hu with h1 | h2
        · exact hl u h1
        · rw [List.mem_singleton.mp h2]
          unfold storeLine
          by_cases hcon : (Clean l).contains '/' = true
          · rw [if_pos (by simpa using hcon)]
            exact Or.inr ⟨base, Clean l, hck, hcon, rfl⟩
          · rw [if_neg (by simpa using hcon)]
            exact Or.inl hck

/-- Every operation preserves the stored-pattern invariant on both lists. -/
theorem applyOp_preserves_StoredOK (op : Op) (st : MWState)
    (hg : ∀ t ∈ st.global, StoredOK t) (hloc : ∀ t ∈ st.loc, StoredOK t) :
    (∀ t ∈ (applyOp st op).global, StoredOK t) ∧ (∀ t ∈ (applyOp st op).loc, StoredOK t) := by
  cases op with
  | addGlobal gs => exact ⟨addAll_preserves_StoredOK gs st.global hg, hloc⟩
  | addLocalOp gs => exact ⟨hg, addAll_preserves_StoredOK gs st.loc hloc⟩
  | addFileOp base path lines =>
    exact ⟨hg, addFileLines_preserves_StoredOK base path lines 0 st.loc hloc⟩

/-- Sequences of operations preserve the stored-pattern invariant. -/
theorem applyOps_preserves_StoredOK (ops : List Op) (st : MWState)
    (hg : ∀ t ∈ st.global, StoredOK t) (hloc : ∀ t ∈ st.loc, StoredOK t) :
    (∀ t ∈ (applyOps st ops).global, StoredOK t) ∧
      (∀ t ∈ (applyOps st ops).loc, StoredOK t) := by
  induction ops generalizing st with
  | nil => exact ⟨hg, hloc⟩
  | cons op ops ih =>
    have h := applyOp_preserves_StoredOK op st hg hloc
    exact ih (applyOp st op) h.1 h.2

/-- C2 amended: after any sequence of `Matcher.Add`, `Worker.Add` and
`Worker.AddFile` operations starting from empty lists, every stored string
either passes the validator, or is the `filepath.Join` of its source file's
directory with a line that passed the validator and contains a path
separator — validation happens before the rewrite, and the rewritten string
itself need not pass `Check`. -/
theorem stored_patterns_validated_or_joined (ops : List Op) (s : List Char)
    (h : s ∈ (applyOps ⟨[], []⟩ ops).global ∨ s ∈ (applyOps ⟨[], []⟩ ops).loc) :
    StoredOK s := by
  have hinv := applyOps_preserves_StoredOK ops ⟨[], []⟩ (by simp) (by simp)
  rcases h with hg | hloc
  · exact hinv.1 s hg
  · exact hinv.2 s hloc

/-- Witness for C2's amended theorem: after adding the global glob `a`, the
stored string `a` satisfies the invariant. -/
theorem stored_patterns_validated_or_joined_witness :
    StoredOK "a".toList :=
  stored_patterns_validated_or_joined [Op.addGlobal ["a".toList]] "a".toList
    (Or.inl (by decide))

/-- An in-loop failure of `Check`: if the scan survives `pre` and the step
on `c` fails with `e`, the loop positions `e` at `col + 1 + pre.length`. -/
theorem checkLoop_err_at (pre : List Char) (st st1 : ScanSt) (col : Int) (c : Char)
    (post : List Char) (e : CheckErr)
    (hrun : runSteps st pre = .ok st1) (hstep : step st1 c = .error e) :
    checkLoop st col (pre ++ c :: post) =
      some ⟨e, col + 1 + pre.length, -1, []⟩ := by
  induction pre generalizing st col with
  | nil =>
    have hst : st = st1 := by
      simpa [runSteps] using hrun
    subst hst
    simp only [List.nil_append, checkLoop, hstep]
    simp
  | cons d pre ih =>
    simp only [runSteps] at hrun
    cases hd : step st d with
    | error e2 =>
      rw [hd] at hrun
      simp at hrun
    | ok st2 =>
      rw [hd] at hrun
      have hrun2 : runSteps st2 pre = Except.ok st1 := hrun
      have ih2 := ih st2 (col + 1) hrun2
      simp only [List.cons_append, checkLoop, hd, List.append_eq]
      rw [ih2]
      have : col + 1 + 1 + (pre.length : Int) = col + 1 + ((d :: pre).length : Int) := by
        simp [List.length_cons]
        ring
      rw [this]

/-- An end-of-input failure of `Check`: if the scan survives the whole input
and the final state's verdict is `e`, the loop positions `e` at
`col + length`, i.e. at the column of the last rune consumed. -/
theorem checkLoop_eoi_at (s : List Char) (st st2 : ScanSt) (col : Int) (e : CheckErr)
    (hrun : runSteps st s = .ok st2) (hfin : finalErr st2.state = some e) :
    checkLoop st col s = some ⟨e, col + s.length, -1, []⟩ := by
  induction s generalizing st col with
  | nil =>
    have hst : st = st2 := by
      simpa [runSteps] using hrun
    subst hst
    simp [checkLoop, hfin]
  | cons d s ih =>
    simp only [runSteps] at hrun
    cases hd : step st d with
    | error e2 =>
      rw [hd] at hrun
      simp at hrun
    | ok st3 =>
      rw [hd] at hrun
      have hrun2 : runSteps st3 s = Except.ok st2 := hrun
      have ih2 := ih st3 (col + 1) hrun2
      simp only [checkLoop, hd]
      rw [ih2]
      have : col + 1 + (s.length : Int) = col + ((d :: s).length : Int) := by
        simp [List.length_cons]
        ring
      rw [this]

/-- C7 amended: the `Column` of an error returned by `Check` is the 0-based
index, counted in characters, of the character that triggered the failure —
if the scan survives the prefix `pre` and fails stepping on `c`, the column
is `pre.length` — while for the end-of-input failures the column is the
index of the LAST character of the input, `length - 1` (so `-1` for the
empty input), not the index one past it. -/
theorem check_error_column (pre : List Char) (c : Char) (post s : List Char)
    (st1 st2 : ScanSt) (e1 e2 : CheckErr) :
    (runSteps initSt pre = .ok st1 → step st1 c = .error e1 →
      Check (pre ++ c :: post) = some ⟨e1, (pre.length : Int), -1, []⟩) ∧
    (runSteps initSt s = .ok st2 → finalErr st2.state = some e2 →
      Check s = some ⟨e2, (s.length : Int) - 1, -1, []⟩) := by
  constructor
  · intro hrun hstep
    have h := checkLoop_err_at pre initSt st1 (-1) c post e1 hrun hstep
    unfold Check
    rw [h]
    have : (-1 : Int) + 1 + (pre.length : Int) = (pre.length : Int) := by ring
    rw [this]
  · intro hrun hfin
    have h := checkLoop_eoi_at s initSt st2 (-1) e2 hrun hfin
    unfold Check
    rw [h]
    have : (-1 : Int) + (s.length : Int) = (s.length : Int) - 1 := by ring
    rw [this]

/-- Witness for C7's amended theorem: `[-` fails in-loop on the `-` at
column `1`, and `a[` fails at end-of-input with column `1`, the index of its
last character. -/
theorem check_error_column_witness :
    Check "[-".toList = some ⟨.UnexpectedRune, 1, -1, []⟩ ∧
    Check "a[".toList = some ⟨.IncompleteClass, 1, -1, []⟩ := by
  constructor
  · have h := (check_error_column ['['] '-' [] "a[".toList
      ⟨.ClassBegin, .Initial, Char.ofNat 0⟩ ⟨.ClassBegin, .Initial, Char.ofNat 0⟩
      .UnexpectedRune .IncompleteClass).1 rfl rfl
    simpa using h
  · have h := (check_error_column ['['] '-' [] "a[".toList
      ⟨.ClassBegin, .Initial, Char.ofNat 0⟩ ⟨.ClassBegin, .Initial, Char.ofNat 0⟩
      .UnexpectedRune .IncompleteClass).2 rfl rfl
    simpa using h

/-- C9 counterexample: starting the ancestor walk at `/a/b` with
configuration basename `m.conf` attempts `/a/b/m.conf` and `/a/m.conf` only;
the root's configuration file `/m.conf` is never attempted, because the walk
breaks as soon as the parent directory becomes `/`, before visiting it. -/
theorem walk_omits_root_config :
    walkAttempts 5 "/a/b".toList "m.conf".toList =
      ["/a/b/m.conf".toList, "/a/m.conf".toList] ∧
    ¬ "/m.conf".toList ∈ walkAttempts 5 "/a/b".toList "m.conf".toList := by
  decide
